import Mathlib

/-!
Shallow embedding of the kodofs repository (a Qiniu-Kodo-backed
http.FileSystem with a local stub cache) and proofs about the claims of its
specification.

Strings of the Go source are modelled as `List Char`; Go errors are the
inductive `GoErr`; fallible operations return `Except GoErr _` or `Option _`;
the local filesystem is an association list from paths to entries; remote
listing calls (`ListFilesWithContext`, which lives outside src/) are oracles:
either functions supplied as parameters or finite lists of page results.
-/

namespace KodoFS

deriving instance DecidableEq for Except

/-- Go errors, as far as this layer distinguishes them.  `os.IsNotExist`
recognises exactly `notExist`; `panicRange` models a runtime
index-out-of-range panic. -/
inductive GoErr where
  | notExist
  | permission
  | eof
  | panicRange
  | other (code : Nat)
deriving DecidableEq, Repr

/-- Model of `os.IsNotExist`. -/
def isNotExist : GoErr → Bool
  | .notExist => true
  | _ => false

/-! ### String helpers (Go `strings` package, on `List Char`) -/

/-- Go `strings.TrimPrefix`: drop `pre` from the front if present, else
return the list unchanged. -/
def trimLead (pre l : List Char) : List Char :=
  if pre.isPrefixOf l then l.drop pre.length else l

/-- Go `strings.HasSuffix`. -/
def endsWith (suf l : List Char) : Bool :=
  suf.isSuffixOf l

/-- Go `strings.SplitN(s, sep, 2)` where `sep` is a single character:
either `[before, after]` split at the first occurrence, or `[s]` when the
separator does not occur. -/
def splitN2 (sep : Char) : List Char → List (List Char)
  | [] => [[]]
  | c :: r =>
    if c = sep then [[], r]
    else
      match splitN2 sep r with
      | [one] => [c :: one]
      | pre :: post :: _ => [c :: pre, post]
      | [] => [[c]]

/-- Go slice expression `l[a:b]` on a string: `none` models the runtime
bounds panic when `a > b` or `b > len l`. -/
def goSlice (l : List Char) (a b : Nat) : Option (List Char) :=
  if a ≤ b ∧ b ≤ l.length then some ((l.take b).drop a) else none

/-- Go slice expression `l[a:]`: `none` models the runtime bounds panic
when `a > len l`. -/
def goSliceFrom (l : List Char) (a : Nat) : Option (List Char) :=
  if a ≤ l.length then some (l.drop a) else none

/-- Whether `pat` occurs as a contiguous run inside `l`. -/
def containsSeq (pat : List Char) : List Char → Bool
  | [] => pat.isPrefixOf ([] : List Char)
  | c :: r => pat.isPrefixOf (c :: r) || containsSeq pat r

/-- Go `path.Base`: the last element of the path, with trailing slashes
removed; `"."` for the empty string, `"/"` when the path is all slashes. -/
def pathBase (p : List Char) : List Char :=
  if p = [] then ['.']
  else
    let r := p.reverse.dropWhile (fun c => c = '/')
    if r = [] then ['/']
    else (r.takeWhile (fun c => c ≠ '/')).reverse

/-! ### File info records (src `kodo.FileInfo` / `kodo.DirInfo`, and the
`fs.FileInfo` surface used by the cached layer) -/

/-- Go `io/fs.ModeDir` (bit 31). -/
def ModeDir : Nat := 2 ^ 31

/-- Go `io/fs.ModeSymlink` (bit 27). -/
def ModeSymlink : Nat := 2 ^ 27

/-- Go `io/fs.ModeIrregular` (bit 19). -/
def ModeIrregular : Nat := 2 ^ 19

/-- Modelled from the spec: the cached layer's `cached.ModeRemote`
("a \"remote/stub\" flag encoded as an extra file-mode bit", from the
external qiniu/x cached package); the stub discriminator is the symlink
bit, so the remote flag is modelled as that bit. -/
def ModeRemote : Nat := ModeSymlink

/-- A file-info record: the data of src's `kodo.FileInfo`/`kodo.DirInfo`
(name, size, modification time, mode). -/
structure FileInfo where
  name : List Char
  size : Nat
  mtimeNanos : Nat
  mode : Nat
deriving DecidableEq, Repr

/-- `IsDir` of a file info: the directory mode bit. -/
def FileInfo.isDir (fi : FileInfo) : Bool :=
  fi.mode.testBit 31

/-- src `xfs.NewFileInfo` as mirrored by the repo's `kodo.FileInfo`
(mode `ModeIrregular`, `IsDir` false). -/
def mkFileInfo (name : List Char) (size : Nat) (mtimeNanos : Nat) : FileInfo :=
  ⟨name, size, mtimeNanos, ModeIrregular⟩

/-- src `xfs.NewDirInfo` as mirrored by the repo's `kodo.DirInfo`
(size 0, mode `ModeIrregular ||| ModeDir`; its `ModTime` is `time.Now()`,
modelled as 0 since no claim depends on it). -/
def mkDirInfo (name : List Char) : FileInfo :=
  ⟨name, 0, 0, ModeIrregular ||| ModeDir⟩

/-- src `fromPutTime`: `time.Unix(0, putTime*100)`, i.e. `putTime * 100`
nanoseconds. -/
def fromPutTime (putTime : Nat) : Nat := putTime * 100

/-! ### Varint byte serialization

Modelled from the spec: the external `xdir.BytesFileInfo`/`xdir.FileInfoFrom`
pair (qiniu/x, not in src/) is "a reversible encoding (base64 of a serialized
record)"; the serialized record here is a base-128 varint encoding of the
record's fields. -/

/-- Encode a natural number as little-endian base-128 varint bytes (high bit
set on every byte except the last). -/
def varEncode (n : Nat) : List Nat :=
  if h : n < 128 then [n] else (n % 128 + 128) :: varEncode (n / 128)
decreasing_by exact Nat.div_lt_self (by omega) (by omega)

/-- Decode one varint from the front of a byte list, returning the value and
the remaining bytes. -/
def varDecode : List Nat → Option (Nat × List Nat)
  | [] => none
  | b :: rest =>
    if b < 128 then some (b, rest)
    else
      match varDecode rest with
      | some (m, r) => some (m * 128 + (b - 128), r)
      | none => none

/-! ### URL-safe base64 (Go `encoding/base64.URLEncoding`)

Modelled from the spec: the stub symlink target is "the URL-safe-base64
encoding of the record's serialized metadata"; `encoding/base64` is the Go
standard library, not part of src/. -/

/-- The URL-safe base64 alphabet. -/
def b64Alphabet : List Char :=
  ("ABCDEFGHIJKLMNOPQRSTUVWXYZabcdefghijklmnopqrstuvwxyz0123456789-_").data

/-- The alphabet character of a sextet. -/
def b64CharOf (n : Nat) : Char :=
  b64Alphabet.getD n 'A'

/-- The sextet of an alphabet character (`none` for characters outside the
alphabet, in particular for `'='`). -/
def b64ValAux : List Char → Nat → Char → Option Nat
  | [], _, _ => none
  | a :: r, i, c => if a = c then some i else b64ValAux r (i + 1) c

def b64Val (c : Char) : Option Nat :=
  b64ValAux b64Alphabet 0 c

/-- Base64url-encode a byte list (with `'='` padding). -/
def b64Encode : List Nat → List Char
  | [] => []
  | [b1] => [b64CharOf (b1 / 4), b64CharOf (b1 % 4 * 16), '=', '=']
  | [b1, b2] =>
    [b64CharOf (b1 / 4), b64CharOf (b1 % 4 * 16 + b2 / 16), b64CharOf (b2 % 16 * 4), '=']
  | b1 :: b2 :: b3 :: rest =>
    b64CharOf (b1 / 4) :: b64CharOf (b1 % 4 * 16 + b2 / 16) ::
      b64CharOf (b2 % 16 * 4 + b3 / 64) :: b64CharOf (b3 % 64) :: b64Encode rest

/-- Base64url-decode a character list; `none` on any character outside the
alphabet, misplaced padding, or a length that is not a multiple of 4. -/
def b64Decode : List Char → Option (List Nat)
  | [] => some []
  | c1 :: c2 :: c3 :: c4 :: rest =>
    match b64Val c1, b64Val c2 with
    | some s1, some s2 =>
      if c3 = '=' then
        if c4 = '=' ∧ rest = [] then some [s1 * 4 + s2 / 16] else none
      else
        match b64Val c3 with
        | some s3 =>
          if c4 = '=' then
            if rest = [] then some [s1 * 4 + s2 / 16, s2 % 16 * 16 + s3 / 4] else none
          else
            match b64Val c4 with
            | some s4 =>
              match b64Decode rest with
              | some bs => some ((s1 * 4 + s2 / 16) :: (s2 % 16 * 16 + s3 / 4) ::
                  (s3 % 4 * 64 + s4) :: bs)
              | none => none
            | none => none
        | none => none
    | _, _ => none
  | _ => none

/-! ### File-info record serialization

Modelled from the spec: the external pair `xdir.BytesFileInfo` /
`xdir.FileInfoFrom` (qiniu/x, not in src/) serializes a file-info record to
bytes and parses it back; the record's name, size, modification time and
mode are stored as varints (the name as a length-measured run of
character-code varints). -/

/-- Serialize a character list: its length, then one varint per character
code. -/
def encodeChars (cs : List Char) : List Nat :=
  cs.flatMap (fun c => varEncode c.toNat)

/-- Parse `n` character-code varints from the front of a byte list. -/
def decodeChars : Nat → List Nat → Option (List Char × List Nat)
  | 0, bs => some ([], bs)
  | n + 1, bs =>
    match varDecode bs with
    | some (v, r) =>
      match decodeChars n r with
      | some (cs, r') => some (Char.ofNat v :: cs, r')
      | none => none
    | none => none

/-- Modelled from the spec: `xdir.BytesFileInfo` — serialize the record's
metadata (name, size, modification time, mode) to bytes. -/
def BytesFileInfo (fi : FileInfo) : List Nat :=
  varEncode fi.name.length ++ encodeChars fi.name ++ varEncode fi.size ++
    varEncode fi.mtimeNanos ++ varEncode fi.mode

/-- Modelled from the spec: `xdir.FileInfoFrom` — parse serialized metadata
back into a record; `none` when the bytes do not deserialize. -/
def FileInfoFrom (bs : List Nat) : Option FileInfo :=
  match varDecode bs with
  | none => none
  | some (len, r1) =>
    match decodeChars len r1 with
    | none => none
    | some (name, r2) =>
      match varDecode r2 with
      | none => none
      | some (size, r3) =>
        match varDecode r3 with
        | none => none
        | some (mtime, r4) =>
          match varDecode r4 with
          | none => none
          | some (mode, r5) =>
            if r5 = [] then some ⟨name, size, mtime, mode⟩ else none

/-! ### Local filesystem model and the stub store (src/unnamed/part_001,
package `cached`)

The local disk is an association list from paths to entries.  Local writes
can also fail environmentally (permission, disk full — spec §7 "Local
persistence errors"); a failure oracle `ff` injects such failures by path. -/

inductive FsEntry where
  | dir
  | file
  | symlink (target : List Char)
deriving DecidableEq, Repr

/-- The local filesystem: an association list from paths to entries. -/
abbrev FS := List (List Char × FsEntry)

/-- Environmental write-failure injection, by path. -/
abbrev FailOracle := List Char → Bool

/-- Look a path up in the local filesystem. -/
def fsGet : FS → List Char → Option FsEntry
  | [], _ => none
  | (q, e) :: r, p => if q = p then some e else fsGet r p

/-- Create or replace the entry at a path. -/
def fsSet : FS → List Char → FsEntry → FS
  | [], p, e => [(p, e)]
  | (q, e') :: r, p, e => if q = p then (q, e) :: r else (q, e') :: fsSet r p e

/-- Go `os.Mkdir`: fails when the path already exists (EEXIST) or on an
injected environmental failure. -/
def osMkdir (ff : FailOracle) (fs : FS) (p : List Char) : Except GoErr FS :=
  if (fsGet fs p).isSome then .error (.other 17)
  else if ff p then .error (.other 13)
  else .ok (fsSet fs p .dir)

/-- Go `os.Symlink`: fails when the path already exists (EEXIST) or on an
injected environmental failure. -/
def osSymlink (ff : FailOracle) (fs : FS) (target p : List Char) : Except GoErr FS :=
  if (fsGet fs p).isSome then .error (.other 17)
  else if ff p then .error (.other 13)
  else .ok (fsSet fs p (.symlink target))

/-- Go `os.Readlink`: the symlink target, or an error when the path is
missing or not a symbolic link. -/
def osReadlink (fs : FS) (p : List Char) : Except GoErr (List Char) :=
  match fsGet fs p with
  | some (.symlink t) => .ok t
  | some _ => .error (.other 22)
  | none => .error .notExist

/-- src `dirListCacheFile`: the sentinel file name `.bktls.cache`. -/
def dirListCacheFile : List Char := (".bktls.cache").data

/-- src `checkDirCached`: `Lstat` the sentinel file inside `dir`; `none`
models the nil return on error. -/
def checkDirCached (fs : FS) (dir : List Char) : Option FsEntry :=
  fsGet fs (dir ++ '/' :: dirListCacheFile)

/-- src `touchDirCached`: `os.WriteFile(cacheFile, nil, 0666)` — create or
truncate the sentinel file (the caller discards its error; an environmental
failure of this one write is not modelled). -/
def touchDirCached (fs : FS) (dir : List Char) : FS :=
  fsSet fs (dir ++ '/' :: dirListCacheFile) .file

/-- src `fileInfoRemote`: wrapper that ors `cached.ModeRemote` into the
mode. -/
def remoteWrap (fi : FileInfo) : FileInfo :=
  { fi with mode := fi.mode ||| ModeRemote }

/-- src `writeStubFile`: a directory record becomes a local directory;
anything else becomes a symbolic link whose target is the URL-safe base64
of the serialized (remote-wrapped) record. -/
def writeStubFile (ff : FailOracle) (fs : FS) (localFile : List Char)
    (fi : FileInfo) : Except GoErr FS :=
  if fi.isDir then osMkdir ff fs localFile
  else osSymlink ff fs (b64Encode (BytesFileInfo (remoteWrap fi))) localFile

/-- src `readStubFile`: decode the symlink target back into a record; on
any failure (not a symlink, invalid base64, bytes that do not deserialize)
return the fallback info unchanged. -/
def readStubFile (fs : FS) (localFile : List Char) (fi : FileInfo) : FileInfo :=
  match osReadlink fs localFile with
  | .ok dest =>
    match b64Decode dest with
    | some b =>
      match FileInfoFrom b with
      | some ret => ret
      | none => fi
    | none => fi
  | .error _ => fi

/-- src `isRemote`: the symlink mode bit. -/
def isRemote (fi : FileInfo) : Bool :=
  fi.mode.testBit 27

/-- src `remote.SyncOpen`, stub-writing pass (the body of the spawned
goroutine): write one stub per listed child under `base`, counting
failures. Returns the filesystem after the pass and the error count
`nError`. -/
def stubWritePass (ff : FailOracle) (fs : FS) (base : List Char) :
    List FileInfo → FS × Nat
  | [] => (fs, 0)
  | fi :: rest =>
    match writeStubFile ff fs (base ++ '/' :: fi.name) fi with
    | .ok fs' => stubWritePass ff fs' base rest
    | .error _ =>
      let (fs', n) := stubWritePass ff fs base rest
      (fs', n + 1)

/-- src `remote.SyncOpen`, tail of the stub-writing pass: touch the
directory-cached sentinel exactly when the pass counted zero errors. -/
def syncStubPass (ff : FailOracle) (fs : FS) (base : List Char)
    (fis : List FileInfo) : FS :=
  let (fs1, n) := stubWritePass ff fs base fis
  if n = 0 then touchDirCached fs1 base else fs1

/-- Whether every stub write of the pass succeeds (the `nError = 0`
condition, written as a recursive all-succeed check). -/
def stubPassOk (ff : FailOracle) (fs : FS) (base : List Char) :
    List FileInfo → Bool
  | [] => true
  | fi :: rest =>
    match writeStubFile ff fs (base ++ '/' :: fi.name) fi with
    | .ok fs' => stubPassOk ff fs' base rest
    | .error _ => false

/-! ### Remote listing (src/unnamed/part_004, package `kodo`)

`BucketManager.ListFilesWithContext` lives outside src/, so a listing run is
an oracle: the finite sequence of page results the remote returns, one per
fetch, in fetch order. -/

/-- `kodo.ListItem`: one listed object. -/
structure Item where
  key : List Char
  fsize : Nat
  putTime : Nat
deriving DecidableEq, Repr

/-- One page result of the flat (no-delimiter) listing used by
`WalkContext`. -/
structure ListPage where
  items : List Item
  hasNext : Bool
  marker : List Char
deriving DecidableEq, Repr

/-- One page result of the delimiter-"/" listing used by
`ReaddirContext`. -/
structure ListPageD where
  items : List Item
  commonPrefixes : List (List Char)
  hasNext : Bool
  marker : List Char
deriving DecidableEq, Repr

/-- Directory normalization shared by `WalkContext` and `ReaddirContext`:
`"/"` becomes empty, otherwise one leading `"/"` is stripped and a trailing
`"/"` ensured. -/
def normDir (dir : List Char) : List Char :=
  if dir = ['/'] then []
  else
    let d := trimLead ['/'] dir
    if endsWith ['/'] d then d else d ++ ['/']

/-- The visitor invocations of `WalkContext` for the items of one page:
each item is visited with `("/"+key, NewFileInfo(key[len(dir):], fsize))`;
slicing a key shorter than the prefix panics, ending the run (`true` in the
second component). -/
def walkVisitItems (dirLen : Nat) : List Item → List (List Char × FileInfo) × Bool
  | [] => ([], false)
  | it :: rest =>
    match goSliceFrom it.key dirLen with
    | none => ([], true)
    | some nm =>
      let (vs, p) := walkVisitItems dirLen rest
      (('/' :: it.key, mkFileInfo nm it.fsize 0) :: vs, p)

/-- src `Bucket.WalkContext`, page loop: consume fetched pages in order;
a fetch error ends the walk with that error; `hasNext = false` ends it
cleanly.  Returns (visitor invocations, pages fetched, final error).  The
visitor's return value is not consulted anywhere in the loop. -/
def walkPages (dirLen : Nat) :
    List (Except GoErr ListPage) → List (List Char × FileInfo) × Nat × Option GoErr
  | [] => ([], 0, none)
  | .error e :: _ => ([], 1, some e)
  | .ok pg :: rest =>
    let (vs, p) := walkVisitItems dirLen pg.items
    if p then (vs, 1, some .panicRange)
    else if pg.hasNext then
      let (vs', n, r) := walkPages dirLen rest
      (vs ++ vs', n + 1, r)
    else (vs, 1, none)

/-- src `Bucket.WalkContext`: normalize the directory and run the page
loop.  `fn`'s result is discarded by the source, so the walk does not
depend on it; the first component of the result records the invocations of
`fn` in order. -/
def WalkContext (dir : List Char) (fn : List Char → FileInfo → Option GoErr)
    (pages : List (Except GoErr ListPage)) :
    List (List Char × FileInfo) × Nat × Option GoErr :=
  let _ := fn
  walkPages (normDir dir).length pages

/-- src `Bucket.ReaddirContext`, item loop of one page: one
`FileInfo` per item, named `key[len(dir):]` with mtime from `PutTime`;
an out-of-bounds slice is the runtime panic. -/
def readdirItems (dirLen : Nat) : List Item → Except GoErr (List FileInfo)
  | [] => .ok []
  | it :: rest =>
    match goSliceFrom it.key dirLen with
    | none => .error .panicRange
    | some nm =>
      match readdirItems dirLen rest with
      | .ok fis => .ok (mkFileInfo nm it.fsize (fromPutTime it.putTime) :: fis)
      | .error e => .error e

/-- src `Bucket.ReaddirContext`, common-prefix loop of one page: one
directory info per grouped prefix, named `key[len(dir) : len(key)-1]`;
an out-of-bounds slice (including `len(key)-1 < len(dir)`) is the runtime
panic. -/
def readdirCommonPre (dirLen : Nat) : List (List Char) → Except GoErr (List FileInfo)
  | [] => .ok []
  | key :: rest =>
    match (if key.length = 0 then none else goSlice key dirLen (key.length - 1)) with
    | none => .error .panicRange
    | some nm =>
      match readdirCommonPre dirLen rest with
      | .ok fis => .ok (mkDirInfo nm :: fis)
      | .error e => .error e

/-- src `Bucket.ReaddirContext`, page loop. -/
def readdirPages (dirLen : Nat) :
    List (Except GoErr ListPageD) → Except GoErr (List FileInfo)
  | [] => .ok []
  | .error e :: _ => .error e
  | .ok pg :: rest =>
    match readdirItems dirLen pg.items with
    | .error e => .error e
    | .ok a =>
      match readdirCommonPre dirLen pg.commonPrefixes with
      | .error e => .error e
      | .ok b =>
        if pg.hasNext then
          match readdirPages dirLen rest with
          | .ok c => .ok (a ++ b ++ c)
          | .error e => .error e
        else .ok (a ++ b)

/-- src `Bucket.ReaddirContext`: normalize the directory and run the page
loop over the oracle's page results. -/
def ReaddirContext (dir : List Char) (pages : List (Except GoErr ListPageD)) :
    Except GoErr (List FileInfo) :=
  readdirPages (normDir dir).length pages

/-! ### The bucket filesystem adapter (src/kodofs.go) -/

/-- src `isIndexPage`. -/
def isIndexPage (name : List Char) : Bool :=
  endsWith (("/index.html").data) name

/-- A `http.File` handle: either an opened object (opaque to this layer) or
the synthesized directory handle `xfs.Dir(xfs.NewDirInfo(fname), fis)`.
Modelled from the spec for the external `xfs.Dir`: readdir on the handle
returns the wrapped children. -/
inductive HFile where
  | obj (tag : Nat)
  | dir (dname : List Char) (fis : List FileInfo)
deriving DecidableEq, Repr

/-- Readdir of a handle: the synthesized directory handle yields exactly
the wrapped entries; an object handle has none at this layer. -/
def hReaddir : HFile → Option (List FileInfo)
  | .obj _ => none
  | .dir _ fis => some fis

/-- Close of a handle.  The directory variant is src `DirInfo.Close`, which
returns nil; the object variant is not constrained by any claim and closing
it is modelled as returning nil as well. -/
def hClose : HFile → Option GoErr
  | .obj _ => none
  | .dir _ _ => none

/-- src `Bucket.Open`: try the single-object fetch for non-root names,
return early unless the failure is a not-found on a non-index-page name,
otherwise synthesize a directory from the child listing. -/
def bucketOpen (opener : List Char → Except GoErr HFile)
    (pages : List (Except GoErr ListPageD)) (host name : List Char) :
    Except GoErr HFile :=
  let fallThrough :=
    match ReaddirContext name pages with
    | .error e => .error e
    | .ok fis =>
      if fis.length = 0 then .error .notExist
      else .ok (.dir (pathBase name) fis)
  if name ≠ ['/'] then
    match opener (host ++ name) with
    | .ok f => .ok f
    | .error e => if isIndexPage name || !(isNotExist e) then .error e else fallThrough
  else fallThrough

/-! ### The list iterator (src/kodo/_list.go) -/

/-- `ListObject`: one blob as surfaced by `ListIterator.Next`. -/
structure ListObject where
  key : List Char
  mtimeNanos : Nat
  size : Nat
  isDir : Bool
deriving DecidableEq, Repr

/-- The object construction of `ListIterator.Next`: directory entries are
keys ending in "/" with that delimiter stripped (except for "/" itself). -/
def convListObject (obj : Item) : ListObject :=
  let mtime := fromPutTime obj.putTime
  let isDir := endsWith ['/'] obj.key
  let key := if isDir ∧ obj.key ≠ ['/'] then obj.key.dropLast else obj.key
  ⟨key, mtime, obj.fsize, isDir⟩

/-- `ListIterator` state: the current page (objects and next-page token),
the index into it, the last-page flag, and the options' page token. -/
structure ItState where
  page : Option (List Item × List Char)
  nextIdx : Nat
  isLastPage : Bool
  pageToken : List Char
deriving DecidableEq, Repr

/-- src `ListIterator.Next`, with explicit fuel for its recursive
page-loading step: `none` means the recursion did not finish within `fuel`
nested calls; `some` carries Go's `(*ListObject, error)` result — `io.EOF`
is the error `GoErr.eof` — and the mutated iterator.  The page fetch
(`listPaged`, whose network call is outside src/) is the oracle `fetch`,
keyed by page token, returning (objects, next-page token, is-last-page). -/
def nextFuel (fetch : List Char → Except GoErr (List Item × List Char × Bool)) :
    ItState → Nat → Option (Except GoErr ListObject × ItState)
  | _, 0 => none
  | st, n + 1 =>
    match st.page with
    | some (objs, ntok) =>
      if h : st.nextIdx < objs.length then
        some (.ok (convListObject (objs.get ⟨st.nextIdx, h⟩)),
          { st with nextIdx := st.nextIdx + 1 })
      else if st.isLastPage then
        some (.error .eof, st)
      else
        match fetch ntok with
        | .error e => some (.error e, { st with pageToken := ntok })
        | .ok (objs', ntok', last) =>
          nextFuel fetch ⟨some (objs', ntok'), 0, last, ntok⟩ n
    | none =>
      match fetch st.pageToken with
      | .error e => some (.error e, st)
      | .ok (objs', ntok', last) =>
        nextFuel fetch ⟨some (objs', ntok'), 0, last, st.pageToken⟩ n

/-- The claim's precondition on the page-fetch oracle: every successfully
fetched page is non-empty or flagged as the last page. -/
def GoodFetch (fetch : List Char → Except GoErr (List Item × List Char × Bool)) : Prop :=
  ∀ tok objs ntok last, fetch tok = .ok (objs, ntok, last) → objs ≠ [] ∨ last = true

/-! ### The bucket/host registry (src/unnamed/part_000) -/

/-- The process-wide `hosts` registry, as an association list. -/
abbrev Hosts := List (List Char × List Char)

/-- Go map assignment `hosts[bucket] = host`. -/
def hostsUpdate : Hosts → List Char → List Char → Hosts
  | [], b, h => [(b, h)]
  | (b', h') :: r, b, h =>
    if b' = b then (b', h) :: r else (b', h') :: hostsUpdate r b h

/-- Go map read `hosts[bucket]`. -/
def hostsLookup : Hosts → List Char → Option (List Char)
  | [], _ => none
  | (b', h') :: r, b => if b' = b then some h' else hostsLookup r b

/-- src `Register`, loop body: `for i := 0; i < n; i += 2`, reading
`pairs[i]` and `pairs[i+1]`; an index past the end of the argument list is
the runtime panic, modelled as `none`. -/
def registerLoop (pairs : List (List Char)) (i : Nat) (hosts : Hosts) : Option Hosts :=
  if _ : i < pairs.length then
    match pairs[i]?, pairs[i + 1]? with
    | some b, some h => registerLoop pairs (i + 2) (hostsUpdate hosts b h)
    | _, _ => none
  else some hosts
termination_by pairs.length - i

/-- src `Register`: consume the variadic bucket/host arguments from
index 0. -/
def Register (pairs : List (List Char)) (hosts : Hosts) : Option Hosts :=
  registerLoop pairs 0 hosts

/-- The pairing the even-length case stores: consecutive argument pairs. -/
def chunkPairs : List (List Char) → List (List Char × List Char)
  | b :: h :: rest => (b, h) :: chunkPairs rest
  | _ => []

/-! ### Mount-URL parsing (src/kodoutil/parse.go) -/

/-- The decoded token: `url.Values`, as an association list; `Get` of a
missing key is the empty string. -/
abbrev Params := List (List Char × List Char)

/-- Go `url.Values.Get`. -/
def paramsGet : Params → List Char → List Char
  | [], _ => []
  | (k', v') :: r, k => if k' = k then v' else paramsGet r k

/-- src `kodoutil.Parse`: strip the `kodo:` scheme, split at the first
`?`, decode the token with the external `protected.Decode` (qiniu/x, not in
src/ — an oracle here), and require both keys.  On success returns
(bucket, ak, sk). -/
def Parse (decode : List Char → Except GoErr Params) (url : List Char) :
    Except GoErr (List Char × List Char × List Char) :=
  let url' := trimLead (("kodo:").data) url
  let parts := splitN2 '?' url'
  if parts.length ≠ 2 then .error .permission
  else
    match decode (parts.getD 1 []) with
    | .error e => .error e
    | .ok params =>
      let ak := paramsGet params (['a', 'k'])
      let sk := paramsGet params (['s', 'k'])
      if ak = [] ∨ sk = [] then .error .permission
      else .ok (parts.getD 0 [], ak, sk)

/-! ### Lemmas and claim theorems -/

/-- Structural companion of `registerLoop`: the same consumption, phrased
on the suffix of the argument list that remains. -/
def registerAux : List (List Char) → Hosts → Option Hosts
  | [], h => some h
  | [_], _ => none
  | b :: hs :: r, h => registerAux r (hostsUpdate h b hs)

/-- Decode oracle used by the C7 counterexample: the token fails to decode
with a (non-permission) decoder error, as `protected.Decode`'s errors
are. -/
def decodeFailEx : List Char → Except GoErr Params :=
  fun _ => .error (.other 7)

/-- Go `os.Lstat`: the info of the entry at a path, without following
symlinks — a directory carries the directory mode bit, a symlink the
symlink bit (sizes/mtimes of non-stub entries are not tracked by this
model). -/
def lstatInfo (fs : FS) (p : List Char) : Option FileInfo :=
  match fsGet fs p with
  | none => none
  | some .dir => some ⟨pathBase p, 0, 0, ModeDir⟩
  | some .file => some ⟨pathBase p, 0, 0, 0⟩
  | some (.symlink t) => some ⟨pathBase p, t.length, 0, ModeSymlink⟩

/-- Failure oracle that never injects a failure. -/
def noFail : FailOracle := fun _ => false

/-- A concrete local filesystem for the C6 witness: one symlink whose
target is not valid base64. -/
def exStubFS : FS := [(['s'], .symlink ['!'])]

/-- Failure oracle for the C3 counterexample: the write of child `x`
under directory `d` fails environmentally, every other write succeeds. -/
def ffEx : FailOracle := fun p => p = ['d', '/', 'x']

/-- Child record named like the sentinel file itself (a remote object
whose key ends in `.bktls.cache`). -/
def colFi : FileInfo := mkFileInfo dirListCacheFile 1 0

/-- An ordinary child record named `x`. -/
def xFi : FileInfo := mkFileInfo ['x'] 1 0

/-- Opener oracle whose single-object fetch always fails not-found. -/
def openNotExistEx : List Char → Except GoErr HFile := fun _ => .error .notExist

/-- Opener oracle whose single-object fetch always fails with a permission
error (not a not-found condition). -/
def openPermEx : List Char → Except GoErr HFile := fun _ => .error .permission

/-- A one-page child listing for the directory name `/foo`: one object
`foo/a` of 3 bytes. -/
def pagesEx : List (Except GoErr ListPageD) :=
  [.ok ⟨[⟨("foo/a").data, 3, 0⟩], [], false, []⟩]

/-- The pages the walk loop actually consumes: everything up to and
including the first fetch error or the first page with `hasNext = false`. -/
def consumedPages : List (Except GoErr ListPage) → List (Except GoErr ListPage)
  | [] => []
  | .error e :: _ => [.error e]
  | .ok pg :: rest => .ok pg :: (if pg.hasNext then consumedPages rest else [])

/-- The error the walk ends with: the first fetch error, if any page up to
the first non-`hasNext` page failed. -/
def walkErrOf : List (Except GoErr ListPage) → Option GoErr
  | [] => none
  | .error e :: _ => some e
  | .ok pg :: rest => if pg.hasNext then walkErrOf rest else none

/-- The visitor invocations one fetched page contributes: one call per
item, with the full path `"/"+key` and an info named by the key with the
normalized prefix dropped. -/
def pageVisits (dirLen : Nat) : Except GoErr ListPage → List (List Char × FileInfo)
  | .error _ => []
  | .ok pg =>
    pg.items.map (fun it => ('/' :: it.key, mkFileInfo (it.key.drop dirLen) it.fsize 0))

/-- The items of a fetched flat-listing page (none for a failed fetch). -/
def pageItems : Except GoErr ListPage → List Item
  | .error _ => []
  | .ok pg => pg.items

/-- A visitor that requests termination (returns a non-nil error) on every
entry. -/
def walkFnStop : List Char → FileInfo → Option GoErr := fun _ _ => some (.other 1)

/-- A two-page flat listing: key `a` on a first page with `hasNext`, key
`b` on a final page. -/
def walkPagesEx : List (Except GoErr ListPage) :=
  [.ok ⟨[⟨['a'], 1, 0⟩], true, ['m']⟩, .ok ⟨[⟨['b'], 2, 0⟩], false, []⟩]

/-- The entries one delimiter-listing page contributes, on the panic-free
path: items named by dropping the normalized prefix, grouped prefixes
named by dropping the prefix and the trailing delimiter. -/
def readdirSpecPage (dirLen : Nat) (pg : ListPageD) : List FileInfo :=
  pg.items.map (fun it => mkFileInfo (it.key.drop dirLen) it.fsize (fromPutTime it.putTime))
    ++ pg.commonPrefixes.map (fun k => mkDirInfo (k.dropLast.drop dirLen))

/-- The panic-free page loop of `ReaddirContext`: concatenate the entries
of the consumed pages, propagating only fetch errors. -/
def readdirSpec (dirLen : Nat) : List (Except GoErr ListPageD) → Except GoErr (List FileInfo)
  | [] => .ok []
  | .error e :: _ => .error e
  | .ok pg :: rest =>
    if pg.hasNext then
      match readdirSpec dirLen rest with
      | .ok c => .ok (readdirSpecPage dirLen pg ++ c)
      | .error e => .error e
    else .ok (readdirSpecPage dirLen pg)

/-- The items of a fetched delimiter-listing page (none for a failed
fetch). -/
def pageItemsD : Except GoErr ListPageD → List Item
  | .error _ => []
  | .ok pg => pg.items

/-- The common prefixes of a fetched delimiter-listing page (none for a
failed fetch). -/
def pageCommonPre : Except GoErr ListPageD → List (List Char)
  | .error _ => []
  | .ok pg => pg.commonPrefixes

/-- Page-fetch oracle that always returns an empty page that is not the
last one. -/
def emptyPagesFetch : List Char → Except GoErr (List Item × List Char × Bool) :=
  fun _ => .ok ([], [], false)

/-- Page-fetch oracle that returns one single-object last page. -/
def goodFetchEx : List Char → Except GoErr (List Item × List Char × Bool) :=
  fun _ => .ok ([⟨['a'], 1, 0⟩], [], true)

/-! ### Theorems -/

theorem varEncode_lt_256 (n : Nat) : ∀ b ∈ varEncode n, b < 256 := by
  induction n using Nat.strong_induction_on with
  | _ n ih =>
    rw [varEncode]
    split
    · intro b hb
      simp only [List.mem_singleton] at hb
      omega
    · intro b hb
      rcases List.mem_cons.1 hb with h | h
      · omega
      · exact ih (n / 128) (Nat.div_lt_self (by omega) (by omega)) b h

theorem varDecode_varEncode (n : Nat) (rest : List Nat) :
    varDecode (varEncode n ++ rest) = some (n, rest) := by
  induction n using Nat.strong_induction_on with
  | _ n ih =>
    rw [varEncode]
    split
    · simp only [List.cons_append, List.nil_append, varDecode]
      rename_i h
      simp [h]
    · rename_i h
      simp only [List.cons_append, varDecode, if_neg (by omega : ¬ n % 128 + 128 < 128),
        List.append_eq]
      rw [ih (n / 128) (Nat.div_lt_self (by omega) (by omega))]
      simp only [Option.some.injEq, Prod.mk.injEq, and_true]
      omega

theorem b64Val_b64CharOf : ∀ n, n < 64 → b64Val (b64CharOf n) = some n := by
  decide

theorem b64CharOf_ne_eq : ∀ n, n < 64 → (b64CharOf n = '=') = False := by
  decide

theorem b64Decode_b64Encode :
    ∀ bs : List Nat, (∀ b ∈ bs, b < 256) → b64Decode (b64Encode bs) = some bs := by
  intro bs
  induction bs using b64Encode.induct with
  | case1 =>
    intro _
    rfl
  | case2 b1 =>
    intro h
    have hb1 : b1 < 256 := h b1 (by simp)
    simp only [b64Encode, b64Decode]
    rw [b64Val_b64CharOf _ (by omega), b64Val_b64CharOf _ (by omega)]
    simp only [if_pos rfl, and_self, reduceIte, Option.some.injEq, List.cons.injEq,
      and_true]
    omega
  | case3 b1 b2 =>
    intro h
    have hb1 : b1 < 256 := h b1 (by simp)
    have hb2 : b2 < 256 := h b2 (by simp)
    have e1 := b64Val_b64CharOf (b1 / 4) (by omega)
    have e2 := b64Val_b64CharOf (b1 % 4 * 16 + b2 / 16) (by omega)
    have e3 := b64Val_b64CharOf (b2 % 16 * 4) (by omega)
    have hne3 : (b64CharOf (b2 % 16 * 4) = '=') = False := b64CharOf_ne_eq _ (by omega)
    simp only [b64Encode, b64Decode, e1, e2, e3, hne3, if_false, if_pos rfl, reduceIte,
      Option.some.injEq, List.cons.injEq, and_true]
    omega
  | case4 b1 b2 b3 rest ih =>
    intro h
    have hb1 : b1 < 256 := h b1 (by simp)
    have hb2 : b2 < 256 := h b2 (by simp)
    have hb3 : b3 < 256 := h b3 (by simp)
    have hrest : ∀ b ∈ rest, b < 256 := fun b hb => h b (by simp [hb])
    have e1 := b64Val_b64CharOf (b1 / 4) (by omega)
    have e2 := b64Val_b64CharOf (b1 % 4 * 16 + b2 / 16) (by omega)
    have e3 := b64Val_b64CharOf (b2 % 16 * 4 + b3 / 64) (by omega)
    have e4 := b64Val_b64CharOf (b3 % 64) (by omega)
    have hne3 : (b64CharOf (b2 % 16 * 4 + b3 / 64) = '=') = False :=
      b64CharOf_ne_eq _ (by omega)
    have hne4 : (b64CharOf (b3 % 64) = '=') = False := b64CharOf_ne_eq _ (by omega)
    simp only [b64Encode, b64Decode, e1, e2, e3, e4, hne3, hne4, if_false, reduceIte,
      ih hrest, Option.some.injEq, List.cons.injEq, and_true]
    refine ⟨by omega, by omega, by omega⟩

theorem decodeChars_encodeChars (cs : List Char) (rest : List Nat) :
    decodeChars cs.length (encodeChars cs ++ rest) = some (cs, rest) := by
  induction cs generalizing rest with
  | nil => rfl
  | cons c cs ih =>
    simp only [encodeChars, List.flatMap_cons, List.length_cons, decodeChars,
      List.append_assoc, varDecode_varEncode]
    have := ih rest
    simp only [encodeChars] at this
    simp [this, Char.ofNat_toNat]

theorem FileInfoFrom_BytesFileInfo (fi : FileInfo) :
    FileInfoFrom (BytesFileInfo fi) = some fi := by
  simp only [FileInfoFrom, BytesFileInfo, List.append_assoc, varDecode_varEncode,
    decodeChars_encodeChars]
  rw [show varEncode fi.mode = varEncode fi.mode ++ [] by simp, varDecode_varEncode]
  rfl

theorem BytesFileInfo_lt_256 (fi : FileInfo) : ∀ b ∈ BytesFileInfo fi, b < 256 := by
  intro b hb
  simp only [BytesFileInfo, List.append_assoc, List.mem_append, encodeChars,
    List.mem_flatMap] at hb
  rcases hb with h | ⟨c, _, h⟩ | h | h | h
  · exact varEncode_lt_256 _ b h
  · exact varEncode_lt_256 _ b h
  · exact varEncode_lt_256 _ b h
  · exact varEncode_lt_256 _ b h
  · exact varEncode_lt_256 _ b h

theorem registerLoop_eq_auxN (n : Nat) :
    ∀ (ps : List (List Char)) (i : Nat) (h : Hosts), ps.length - i ≤ n →
      registerLoop ps i h = registerAux (ps.drop i) h := by
  induction n using Nat.strong_induction_on with
  | _ n ih =>
    intro ps i h hn
    rw [registerLoop]
    by_cases hi : i < ps.length
    · have hdropi : ps.drop i = ps[i] :: ps.drop (i + 1) := List.drop_eq_getElem_cons hi
      rw [List.getElem?_eq_getElem hi]
      by_cases hi1 : i + 1 < ps.length
      · have hdrop1 : ps.drop (i + 1) = ps[i + 1] :: ps.drop (i + 2) :=
          List.drop_eq_getElem_cons hi1
        rw [List.getElem?_eq_getElem hi1]
        simp only [dif_pos hi]
        rw [ih (ps.length - (i + 2)) (by omega) ps (i + 2) _ (by omega)]
        rw [hdropi, hdrop1, registerAux]
      · have hlen : ps.length = i + 1 := by omega
        have hdrop1 : ps.drop (i + 1) = [] := List.drop_eq_nil_of_le (by omega)
        rw [List.getElem?_eq_none (by omega)]
        simp only [dif_pos hi]
        rw [hdropi, hdrop1, registerAux]
    · rw [List.drop_eq_nil_of_le (by omega), registerAux]
      simp [hi]

theorem registerLoop_eq_aux (ps : List (List Char)) (i : Nat) (h : Hosts) :
    registerLoop ps i h = registerAux (ps.drop i) h :=
  registerLoop_eq_auxN (ps.length - i) ps i h (le_refl _)

theorem registerAux_even (l : List (List Char)) (h : Hosts) :
    l.length % 2 = 0 →
      registerAux l h = some (chunkPairs l |>.foldl (fun m p => hostsUpdate m p.1 p.2) h) := by
  induction l, h using registerAux.induct with
  | case1 h => intro _; rfl
  | case2 x h => intro he; simp at he
  | case3 b hs r h ih =>
    intro he
    simp only [List.length_cons] at he
    rw [registerAux, chunkPairs, List.foldl_cons]
    exact ih (by omega)

theorem registerAux_odd (l : List (List Char)) (h : Hosts) :
    l.length % 2 = 1 → registerAux l h = none := by
  induction l, h using registerAux.induct with
  | case1 h => intro he; simp at he
  | case2 x h => intro _; rfl
  | case3 b hs r h ih =>
    intro he
    simp only [List.length_cons] at he
    rw [registerAux]
    exact ih (by omega)

/-- C10: `Register` consumes its variadic arguments strictly in pairs.
With an even number of arguments it stores each consecutive (bucket, host)
pair, in order, in the registry (a fold of map assignments over the
chunked pairs); with an odd number of arguments the loop's last iteration
reads one index past the end of the argument list — a runtime
index-out-of-range panic, modelled as `none`. -/
theorem register_even_odd (ps : List (List Char)) (hosts : Hosts) :
    (ps.length % 2 = 0 →
      Register ps hosts =
        some (chunkPairs ps |>.foldl (fun m p => hostsUpdate m p.1 p.2) hosts)) ∧
    (ps.length % 2 = 1 → Register ps hosts = none) := by
  constructor
  · intro he
    rw [Register, registerLoop_eq_aux, List.drop_zero]
    exact registerAux_even ps hosts he
  · intro ho
    rw [Register, registerLoop_eq_aux, List.drop_zero]
    exact registerAux_odd ps hosts ho

/-- Witness for C10: a concrete even-length call stores the pair, and a
concrete odd-length call hits the out-of-range read. -/
theorem register_even_odd_witness :
    Register [['b'], ['h']] [] = some [(['b'], ['h'])] ∧
      Register [['b']] [] = none :=
  ⟨(register_even_odd [['b'], ['h']] []).1 (by decide),
   (register_even_odd [['b']] []).2 (by decide)⟩

theorem splitN2_mem (sep : Char) (l : List Char) :
    ((splitN2 sep l).length = 2 ∧ sep ∈ l) ∨
      ((splitN2 sep l).length = 1 ∧ sep ∉ l) := by
  induction l with
  | nil => right; exact ⟨rfl, List.not_mem_nil sep⟩
  | cons c r ih =>
    rw [splitN2]
    by_cases hc : c = sep
    · left
      subst hc
      simp
    · rw [if_neg hc]
      rcases ih with ⟨h1, h2⟩ | ⟨h1, h2⟩
      · obtain ⟨a, b, hab⟩ := List.length_eq_two.1 h1
        rw [hab]
        left
        refine ⟨rfl, List.mem_cons_of_mem _ h2⟩
      · obtain ⟨a, hab⟩ := List.length_eq_one.1 h1
        rw [hab]
        right
        refine ⟨rfl, ?_⟩
        intro hmem
        rcases List.mem_cons.1 hmem with h | h
        · exact hc h.symm
        · exact h2 h

/-- Counterexample to C7 as stated: on an undecodable token, `Parse`
returns the decoder's error unchanged — not a permission error. -/
theorem parse_decode_error_passthrough :
    Parse decodeFailEx (("kodo:b?bad").data) = .error (.other 7) ∧
      GoErr.other 7 ≠ GoErr.permission :=
  ⟨rfl, by decide⟩

/-- C7, amended: `Parse` fails with a permission error when the `?`
separator is missing, or when the decoded token lacks the access key or
the secret key; when the token itself fails to decode, `Parse` fails with
the decoder's own error (not necessarily a permission error); on success
it returns the bucket name (the part before `?`, scheme stripped) together
with both keys. -/
theorem parse_error_cases (decode : List Char → Except GoErr Params) (url : List Char) :
    ('?' ∉ trimLead (("kodo:").data) url → Parse decode url = .error .permission) ∧
    (∀ e, '?' ∈ trimLead (("kodo:").data) url →
      decode ((splitN2 '?' (trimLead (("kodo:").data) url)).getD 1 []) = .error e →
      Parse decode url = .error e) ∧
    (∀ ps, '?' ∈ trimLead (("kodo:").data) url →
      decode ((splitN2 '?' (trimLead (("kodo:").data) url)).getD 1 []) = .ok ps →
      ((paramsGet ps (['a', 'k']) = [] ∨ paramsGet ps (['s', 'k']) = []) →
          Parse decode url = .error .permission) ∧
      (paramsGet ps (['a', 'k']) ≠ [] → paramsGet ps (['s', 'k']) ≠ [] →
          Parse decode url =
            .ok ((splitN2 '?' (trimLead (("kodo:").data) url)).getD 0 [],
              paramsGet ps (['a', 'k']), paramsGet ps (['s', 'k'])))) := by
  have hs := splitN2_mem '?' (trimLead (("kodo:").data) url)
  refine ⟨?_, ?_, ?_⟩
  · intro hq
    rcases hs with ⟨_, h2⟩ | ⟨h1, _⟩
    · exact absurd h2 hq
    · rw [Parse, if_pos (by omega)]
  · intro e hq hdec
    rcases hs with ⟨h1, _⟩ | ⟨_, h2⟩
    · rw [Parse, if_neg (by omega), hdec]
    · exact absurd hq h2
  · intro ps hq hdec
    rcases hs with ⟨h1, _⟩ | ⟨_, h2⟩
    · constructor
      · intro hmiss
        rw [Parse, if_neg (by omega), hdec]
        simp only [if_pos hmiss]
      · intro hak hsk
        rw [Parse, if_neg (by omega), hdec]
        simp only [if_neg (by tauto : ¬ (paramsGet ps (['a', 'k']) = [] ∨
          paramsGet ps (['s', 'k']) = []))]
    · exact absurd hq h2

/-- Witness for C7's amended theorem at concrete inputs: a URL with no
separator fails with a permission error, and a well-formed URL with both
keys parses. -/
theorem parse_error_cases_witness :
    Parse decodeFailEx (("kodo:bucket").data) = .error .permission :=
  (parse_error_cases decodeFailEx (("kodo:bucket").data)).1 (by decide)

theorem fsGet_fsSet (fs : FS) (p q : List Char) (e : FsEntry) :
    fsGet (fsSet fs p e) q = if p = q then some e else fsGet fs q := by
  induction fs with
  | nil =>
    simp only [fsSet, fsGet]
  | cons hd r ih =>
    obtain ⟨q', e'⟩ := hd
    rw [fsSet]
    by_cases hqp : q' = p
    · subst hqp
      rw [if_pos rfl, fsGet, fsGet]
      by_cases hq : q' = q
      · simp [hq]
      · simp [hq]
    · rw [if_neg hqp, fsGet, fsGet]
      by_cases hq : q' = q
      · subst hq
        rw [if_pos rfl, if_pos rfl, if_neg ?_]
        intro h
        exact hqp h.symm
      · rw [if_neg hq, if_neg hq, ih]

theorem readStubFileCases (fs : FS) (p : List Char) (fb : FileInfo) :
    ((∀ t, fsGet fs p ≠ some (.symlink t)) → readStubFile fs p fb = fb) ∧
    (∀ t, fsGet fs p = some (.symlink t) → b64Decode t = none →
      readStubFile fs p fb = fb) ∧
    (∀ t bs, fsGet fs p = some (.symlink t) → b64Decode t = some bs →
      FileInfoFrom bs = none → readStubFile fs p fb = fb) ∧
    (∀ t bs r, fsGet fs p = some (.symlink t) → b64Decode t = some bs →
      FileInfoFrom bs = some r → readStubFile fs p fb = r) := by
  refine ⟨?_, ?_, ?_, ?_⟩
  · intro hns
    cases hg : fsGet fs p with
    | none => simp [readStubFile, osReadlink, hg]
    | some e =>
      cases e with
      | dir => simp [readStubFile, osReadlink, hg]
      | file => simp [readStubFile, osReadlink, hg]
      | symlink t => exact absurd hg (hns t)
  · intro t hg hb
    simp [readStubFile, osReadlink, hg, hb]
  · intro t bs hg hb hf
    simp [readStubFile, osReadlink, hg, hb, hf]
  · intro t bs r hg hb hf
    simp [readStubFile, osReadlink, hg, hb, hf]

/-- C6: `readStubFile` returns the decoded embedded metadata when the
local path is a symlink whose target is valid base64 deserializing to a
record; whenever any step fails (not a symlink, invalid base64, bytes that
do not deserialize) it returns the fallback info unmodified — and it never
returns an error in any case. -/
theorem readStub_fallback_cases (fs : FS) (p : List Char) (fb : FileInfo) :
    ((∀ t, fsGet fs p ≠ some (.symlink t)) → readStubFile fs p fb = fb) ∧
    (∀ t, fsGet fs p = some (.symlink t) → b64Decode t = none →
      readStubFile fs p fb = fb) ∧
    (∀ t bs, fsGet fs p = some (.symlink t) → b64Decode t = some bs →
      FileInfoFrom bs = none → readStubFile fs p fb = fb) ∧
    (∀ t bs r, fsGet fs p = some (.symlink t) → b64Decode t = some bs →
      FileInfoFrom bs = some r → readStubFile fs p fb = r) :=
  readStubFileCases fs p fb

/-- Witness for C6 at a concrete input: a symlink whose target is not
valid base64 falls back to the caller's info. -/
theorem readStub_fallback_cases_witness :
    readStubFile exStubFS ['s'] (mkFileInfo ['s'] 0 0) = mkFileInfo ['s'] 0 0 :=
  (readStub_fallback_cases exStubFS ['s'] (mkFileInfo ['s'] 0 0)).2.1 ['!'] rfl rfl

/-- C5: for a non-directory record, reading back the stub written for it
(at the same local path, with any fallback) reproduces the record's name,
size and is-directory flag exactly; for a directory record the stub write
creates a local directory whose lstat read-back keeps the is-directory
flag. -/
theorem stub_roundtrip (ff : FailOracle) (fs fs' : FS) (p : List Char) (fi fb : FileInfo) :
    (fi.isDir = false → writeStubFile ff fs p fi = .ok fs' →
      (readStubFile fs' p fb).name = fi.name ∧
      (readStubFile fs' p fb).size = fi.size ∧
      (readStubFile fs' p fb).isDir = false) ∧
    (fi.isDir = true → writeStubFile ff fs p fi = .ok fs' →
      fsGet fs' p = some .dir ∧
      ∃ lfi, lstatInfo fs' p = some lfi ∧ readStubFile fs' p lfi = lfi ∧
        lfi.isDir = true) := by
  constructor
  · intro hdir hw
    rw [writeStubFile, hdir] at hw
    simp only [Bool.false_eq_true, if_false, osSymlink] at hw
    split at hw
    · exact absurd hw (by simp)
    · split at hw
      · exact absurd hw (by simp)
      · have hfs' : fs' = fsSet fs p (.symlink (b64Encode (BytesFileInfo (remoteWrap fi)))) := by
          cases hw
          rfl
        subst hfs'
        have hget :
            fsGet (fsSet fs p (.symlink (b64Encode (BytesFileInfo (remoteWrap fi))))) p =
              some (.symlink (b64Encode (BytesFileInfo (remoteWrap fi)))) := by
          rw [fsGet_fsSet]
          simp
        have hdec :
            b64Decode (b64Encode (BytesFileInfo (remoteWrap fi))) =
              some (BytesFileInfo (remoteWrap fi)) :=
          b64Decode_b64Encode _ (BytesFileInfo_lt_256 _)
        have hread := (readStubFileCases _ p fb).2.2.2 _ _ _ hget hdec
          (FileInfoFrom_BytesFileInfo (remoteWrap fi))
        rw [hread]
        refine ⟨rfl, rfl, ?_⟩
        simp only [FileInfo.isDir, remoteWrap, Nat.testBit_lor] at hdir ⊢
        rw [hdir]
        decide
  · intro hdir hw
    rw [writeStubFile, hdir] at hw
    simp only [if_true, osMkdir] at hw
    split at hw
    · exact absurd hw (by simp)
    · split at hw
      · exact absurd hw (by simp)
      · have hfs' : fs' = fsSet fs p .dir := by
          cases hw
          rfl
        subst hfs'
        have hget : fsGet (fsSet fs p .dir) p = some .dir := by
          rw [fsGet_fsSet]
          simp
        refine ⟨hget, ⟨pathBase p, 0, 0, ModeDir⟩, ?_, ?_, ?_⟩
        · rw [lstatInfo, hget]
        · exact (readStubFileCases _ p _).1 (fun t h => by
            rw [hget] at h
            cases h)
        · simp only [FileInfo.isDir, ModeDir]
          decide

/-- Witness for C5 at a concrete record and path, with no injected write
failures. -/
theorem stub_roundtrip_witness :
    (readStubFile (fsSet [] ['f'] (.symlink (b64Encode (BytesFileInfo
        (remoteWrap (mkFileInfo ['f'] 5 7)))))) ['f'] (mkFileInfo ['f'] 0 0)).name = ['f'] ∧
    (readStubFile (fsSet [] ['f'] (.symlink (b64Encode (BytesFileInfo
        (remoteWrap (mkFileInfo ['f'] 5 7)))))) ['f'] (mkFileInfo ['f'] 0 0)).size = 5 ∧
    (readStubFile (fsSet [] ['f'] (.symlink (b64Encode (BytesFileInfo
        (remoteWrap (mkFileInfo ['f'] 5 7)))))) ['f'] (mkFileInfo ['f'] 0 0)).isDir = false :=
  (stub_roundtrip noFail [] _ ['f'] (mkFileInfo ['f'] 5 7) (mkFileInfo ['f'] 0 0)).1
    (by decide) rfl

theorem writeStubFile_ok_shape (ff : FailOracle) (fs fs' : FS) (p : List Char)
    (fi : FileInfo) (h : writeStubFile ff fs p fi = .ok fs') :
    fs' = fsSet fs p
      (if fi.isDir then .dir
       else .symlink (b64Encode (BytesFileInfo (remoteWrap fi)))) := by
  rw [writeStubFile] at h
  by_cases hd : fi.isDir
  · rw [if_pos hd] at h ⊢
    rw [osMkdir] at h
    split at h
    · exact absurd h (by simp)
    · split at h
      · exact absurd h (by simp)
      · cases h
        rfl
  · rw [if_neg hd] at h ⊢
    rw [osSymlink] at h
    split at h
    · exact absurd h (by simp)
    · split at h
      · exact absurd h (by simp)
      · cases h
        rfl

theorem fsGet_fsSet_isSome (fs : FS) (p q : List Char) (e : FsEntry)
    (h : (fsGet fs q).isSome) : (fsGet (fsSet fs p e) q).isSome := by
  rw [fsGet_fsSet]
  split
  · rfl
  · exact h

theorem stubWritePass_mono (ff : FailOracle) (base : List Char) (fis : List FileInfo) :
    ∀ (fs : FS) (q : List Char), (fsGet fs q).isSome →
      (fsGet (stubWritePass ff fs base fis).1 q).isSome := by
  induction fis with
  | nil => intro fs q h; exact h
  | cons fi rest ih =>
    intro fs q h
    rw [stubWritePass]
    cases hw : writeStubFile ff fs (base ++ '/' :: fi.name) fi with
    | ok fs' =>
      have := writeStubFile_ok_shape ff fs fs' _ fi hw
      subst this
      exact ih _ q (fsGet_fsSet_isSome fs _ q _ h)
    | error e => exact ih fs q h

theorem stubWritePass_count_zero_iff (ff : FailOracle) (base : List Char)
    (fis : List FileInfo) : ∀ fs : FS,
      ((stubWritePass ff fs base fis).2 = 0 ↔ stubPassOk ff fs base fis = true) := by
  induction fis with
  | nil => intro fs; simp [stubWritePass, stubPassOk]
  | cons fi rest ih =>
    intro fs
    rw [stubWritePass, stubPassOk]
    cases hw : writeStubFile ff fs (base ++ '/' :: fi.name) fi with
    | ok fs' => exact ih fs'
    | error e => simp

theorem stubWritePass_all_present (ff : FailOracle) (base : List Char)
    (fis : List FileInfo) : ∀ fs : FS, stubPassOk ff fs base fis = true →
      ∀ fi ∈ fis, (fsGet (stubWritePass ff fs base fis).1 (base ++ '/' :: fi.name)).isSome := by
  induction fis with
  | nil => intro fs _ fi hfi; exact absurd hfi (List.not_mem_nil fi)
  | cons fi0 rest ih =>
    intro fs hok fi hfi
    rw [stubPassOk] at hok
    rw [stubWritePass]
    cases hw : writeStubFile ff fs (base ++ '/' :: fi0.name) fi0 with
    | ok fs' =>
      rw [hw] at hok
      rcases List.mem_cons.1 hfi with h | h
      · subst h
        refine stubWritePass_mono ff base rest fs' _ ?_
        have hsh := writeStubFile_ok_shape ff fs fs' _ fi hw
        subst hsh
        rw [fsGet_fsSet, if_pos rfl]
        rfl
      · exact ih fs' hok fi h
    | error e =>
      rw [hw] at hok
      cases hok

theorem stubWritePass_untouched (ff : FailOracle) (base : List Char)
    (fis : List FileInfo) : ∀ (fs : FS) (q : List Char),
      (∀ fi ∈ fis, base ++ '/' :: fi.name ≠ q) →
      fsGet (stubWritePass ff fs base fis).1 q = fsGet fs q := by
  induction fis with
  | nil => intro fs q _; rfl
  | cons fi rest ih =>
    intro fs q hq
    rw [stubWritePass]
    cases hw : writeStubFile ff fs (base ++ '/' :: fi.name) fi with
    | ok fs' =>
      have hsh := writeStubFile_ok_shape ff fs fs' _ fi hw
      subst hsh
      rw [ih _ q (fun f hf => hq f (List.mem_cons_of_mem _ hf))]
      rw [fsGet_fsSet, if_neg (hq fi (List.mem_cons_self fi rest))]
    | error e => exact ih fs q (fun f hf => hq f (List.mem_cons_of_mem _ hf))

/-- C3, amended: in the stub-writing pass after opening a directory, the
sentinel file is touched exactly when every child stub write of the pass
succeeded (the pass's error count is zero); provided the sentinel was
absent before the pass and no listed child is itself named like the
sentinel file, the sentinel's presence after the pass is equivalent to
full success and implies that every child observed in the listing has a
corresponding local entry (stub link or directory). -/
theorem syncPass_sentinel_iff (ff : FailOracle) (fs : FS) (base : List Char)
    (fis : List FileInfo)
    (habsent : checkDirCached fs base = none)
    (hnocol : ∀ fi ∈ fis, fi.name ≠ dirListCacheFile) :
    ((stubWritePass ff fs base fis).2 = 0 ↔ stubPassOk ff fs base fis = true) ∧
    ((checkDirCached (syncStubPass ff fs base fis) base).isSome ↔
      (stubWritePass ff fs base fis).2 = 0) ∧
    ((checkDirCached (syncStubPass ff fs base fis) base).isSome →
      ∀ fi ∈ fis, (fsGet (syncStubPass ff fs base fis) (base ++ '/' :: fi.name)).isSome) := by
  have hchild : ∀ fi ∈ fis, base ++ '/' :: fi.name ≠ base ++ '/' :: dirListCacheFile := by
    intro fi hfi h
    have h2 := List.append_cancel_left h
    exact hnocol fi hfi (List.cons_eq_cons.1 h2).2
  have hpass : checkDirCached (stubWritePass ff fs base fis).1 base = none := by
    rw [checkDirCached] at habsent ⊢
    rw [stubWritePass_untouched ff base fis fs _ hchild]
    exact habsent
  refine ⟨stubWritePass_count_zero_iff ff base fis fs, ?_, ?_⟩
  · constructor
    · intro hsome
      by_contra hne
      rw [syncStubPass] at hsome
      simp only [if_neg hne] at hsome
      rw [hpass] at hsome
      cases hsome
    · intro hz
      rw [syncStubPass]
      simp only [hz, if_pos]
      rw [checkDirCached, touchDirCached, fsGet_fsSet, if_pos rfl]
      rfl
  · intro hsome fi hfi
    have hz : (stubWritePass ff fs base fis).2 = 0 := by
      by_contra hne
      rw [syncStubPass] at hsome
      simp only [if_neg hne] at hsome
      rw [hpass] at hsome
      cases hsome
    have hok := (stubWritePass_count_zero_iff ff base fis fs).1 hz
    have hpres := stubWritePass_all_present ff base fis fs hok fi hfi
    rw [syncStubPass]
    simp only [hz, if_pos]
    rw [touchDirCached]
    exact fsGet_fsSet_isSome _ _ _ _ hpres

/-- Witness for C3's amended theorem at a concrete pass: one child,
no failures — the sentinel appears and the child is stubbed. -/
theorem syncPass_sentinel_iff_witness :
    ((stubWritePass noFail [] ['d'] [xFi]).2 = 0 ↔
      stubPassOk noFail [] ['d'] [xFi] = true) ∧
    ((checkDirCached (syncStubPass noFail [] ['d'] [xFi]) ['d']).isSome ↔
      (stubWritePass noFail [] ['d'] [xFi]).2 = 0) ∧
    ((checkDirCached (syncStubPass noFail [] ['d'] [xFi]) ['d']).isSome →
      ∀ fi ∈ [xFi], (fsGet (syncStubPass noFail [] ['d'] [xFi])
        (['d'] ++ '/' :: fi.name)).isSome) :=
  syncPass_sentinel_iff noFail [] ['d'] [xFi] (by decide) (by decide)

/-- Counterexample to C3 as stated: with a child that is itself named like
the sentinel file and another child whose stub write fails, the pass
counts an error (so the sentinel is deliberately not touched) yet the
sentinel test still reports the directory as cached — while the failed
child has no local stub. -/
theorem syncPass_sentinel_counterexample :
    (checkDirCached (syncStubPass ffEx [] ['d'] [colFi, xFi]) ['d']).isSome = true ∧
    fsGet (syncStubPass ffEx [] ['d'] [colFi, xFi]) ['d', '/', 'x'] = none ∧
    (stubWritePass ffEx [] ['d'] [colFi, xFi]).2 ≠ 0 := by
  refine ⟨by decide, by decide, by decide⟩

theorem bucketOpen_fallThrough (opener : List Char → Except GoErr HFile)
    (pages : List (Except GoErr ListPageD)) (host name : List Char)
    (hfall : name = ['/'] ∨ ∃ e, opener (host ++ name) = .error e ∧
      isIndexPage name = false ∧ isNotExist e = true) :
    bucketOpen opener pages host name =
      match ReaddirContext name pages with
      | .error e => .error e
      | .ok fis =>
        if fis.length = 0 then .error .notExist
        else .ok (.dir (pathBase name) fis) := by
  rw [bucketOpen]
  rcases hfall with hroot | ⟨e, he, hip, hne⟩
  · rw [if_neg (by simp [hroot])]
  · by_cases hr : name = ['/']
    · rw [if_neg (by simp [hr])]
    · rw [if_pos (by simp [hr]), he]
      simp only [hip, hne, Bool.not_true, Bool.or_self, Bool.false_eq_true, if_false]

/-- C4: when `Bucket.Open` falls through to treating the name as a
directory prefix, a listing with zero entries yields a does-not-exist
error, and a listing with at least one entry yields the synthesized
directory handle whose readdir returns exactly those entries and whose
close is a no-op. -/
theorem open_dir_synthesis (opener : List Char → Except GoErr HFile)
    (pages : List (Except GoErr ListPageD)) (host name : List Char)
    (hfall : name = ['/'] ∨ ∃ e, opener (host ++ name) = .error e ∧
      isIndexPage name = false ∧ isNotExist e = true) :
    (ReaddirContext name pages = .ok [] →
      bucketOpen opener pages host name = .error .notExist) ∧
    (∀ fis, ReaddirContext name pages = .ok fis → fis ≠ [] →
      bucketOpen opener pages host name = .ok (.dir (pathBase name) fis) ∧
      hReaddir (.dir (pathBase name) fis) = some fis ∧
      hClose (.dir (pathBase name) fis) = none) := by
  have hft := bucketOpen_fallThrough opener pages host name hfall
  constructor
  · intro hrd
    rw [hft, hrd]
    rfl
  · intro fis hrd hne
    rw [hft, hrd]
    refine ⟨?_, rfl, rfl⟩
    show (if fis.length = 0 then Except.error GoErr.notExist
      else Except.ok (HFile.dir (pathBase name) fis)) = _
    rw [if_neg (by simp [hne])]

/-- Witness for C4 at a concrete fall-through: a not-found fetch on the
non-index name `/foo` with a one-object child listing synthesizes the
directory handle. -/
theorem open_dir_synthesis_witness :
    bucketOpen openNotExistEx pagesEx [] (("/foo").data) =
      .ok (.dir (("foo").data) [mkFileInfo ['a'] 3 0]) ∧
    hReaddir (.dir (("foo").data) [mkFileInfo ['a'] 3 0]) = some [mkFileInfo ['a'] 3 0] ∧
    hClose (.dir (("foo").data) [mkFileInfo ['a'] 3 0]) = none :=
  (open_dir_synthesis openNotExistEx pagesEx [] (("/foo").data)
      (Or.inr ⟨.notExist, rfl, rfl, rfl⟩)).2
    [mkFileInfo ['a'] 3 0] (by decide) (by decide)

/-- C2, amended: for every non-root name whose single-object fetch fails,
`Bucket.Open` propagates that error to the caller exactly when the name
looks like a synthesized index page or the failure is not a not-found
condition; directory synthesis is attempted only in the remaining case —
a not-found failure on a name that is not an index page. -/
theorem open_propagates_error (opener : List Char → Except GoErr HFile)
    (pages : List (Except GoErr ListPageD)) (host name : List Char)
    (hroot : name ≠ ['/']) :
    (∀ e, opener (host ++ name) = .error e →
      (isIndexPage name = true ∨ isNotExist e = false) →
      bucketOpen opener pages host name = .error e) ∧
    (∀ e, opener (host ++ name) = .error e →
      isIndexPage name = false → isNotExist e = true →
      bucketOpen opener pages host name =
        match ReaddirContext name pages with
        | .error e' => .error e'
        | .ok fis =>
          if fis.length = 0 then .error .notExist
          else .ok (.dir (pathBase name) fis)) := by
  constructor
  · intro e he hcond
    rw [bucketOpen, if_pos (by simp [hroot]), he]
    rcases hcond with h | h
    · simp only [h, Bool.true_or, if_true]
    · simp only [h, Bool.not_false, Bool.or_true, if_true]
  · intro e he hip hne
    exact bucketOpen_fallThrough opener pages host name (Or.inr ⟨e, he, hip, hne⟩)

/-- Witness for C2's amended theorem at a concrete input: a permission
failure (not a not-found condition) on a non-root name is propagated. -/
theorem open_propagates_error_witness :
    bucketOpen openPermEx [] [] (("/x").data) = .error .permission :=
  (open_propagates_error openPermEx [] [] (("/x").data) (by decide)).1
    .permission rfl (Or.inr rfl)

/-- Counterexample to C2 as stated: on a non-root, non-index-page name
whose fetch fails with a not-found condition — the case in which the claim
asserts the error is propagated — `Bucket.Open` does not propagate the
error but synthesizes a directory from the child listing. -/
theorem open_notfound_synthesizes_counterexample :
    bucketOpen openNotExistEx pagesEx [] (("/foo").data) =
      .ok (.dir (("foo").data) [mkFileInfo ['a'] 3 0]) ∧
    isNotExist GoErr.notExist = true ∧
    isIndexPage (("/foo").data) = false ∧
    ("/foo").data ≠ ['/'] := by
  refine ⟨by decide, rfl, by decide, by decide⟩

theorem walkVisitItems_ok (dirLen : Nat) (items : List Item)
    (h : ∀ it ∈ items, dirLen ≤ it.key.length) :
    walkVisitItems dirLen items =
      (items.map (fun it => ('/' :: it.key, mkFileInfo (it.key.drop dirLen) it.fsize 0)),
        false) := by
  induction items with
  | nil => rfl
  | cons it rest ih =>
    rw [walkVisitItems, goSliceFrom, if_pos (h it (List.mem_cons_self it rest))]
    rw [ih (fun x hx => h x (List.mem_cons_of_mem _ hx))]
    rfl

theorem walkPages_trace (dirLen : Nat) (pages : List (Except GoErr ListPage))
    (hkeys : ∀ pr ∈ pages, ∀ it ∈ pageItems pr, dirLen ≤ it.key.length) :
    walkPages dirLen pages =
      ((consumedPages pages).flatMap (pageVisits dirLen),
        (consumedPages pages).length, walkErrOf pages) := by
  induction pages with
  | nil => rfl
  | cons pr rest ih =>
    cases pr with
    | error e => rfl
    | ok pg =>
      have hpg : ∀ it ∈ pg.items, dirLen ≤ it.key.length :=
        hkeys (.ok pg) (List.mem_cons_self _ _)
      rw [walkPages, walkVisitItems_ok dirLen pg.items hpg]
      by_cases hn : pg.hasNext
      · simp only [hn, if_true, Bool.false_eq_true, if_false]
        rw [ih (fun p hp => hkeys p (List.mem_cons_of_mem _ hp))]
        rw [consumedPages, walkErrOf]
        simp [hn, pageVisits]
      · simp only [hn, Bool.false_eq_true, if_false]
        rw [consumedPages, walkErrOf]
        simp [hn, pageVisits]

/-- C1, amended: `WalkContext` invokes the visitor once per listed entry,
in listing order, and stops early only when a page fetch fails — the
visitor's returned error is ignored (the walk does not depend on the
visitor at all), so a termination request does not stop the walk: the
visits are exactly the items of the consumed pages (up to the first fetch
error or the first final page), that many pages are fetched, and the
walk's error is the first fetch error if one occurred. -/
theorem walkContext_trace (dir : List Char) (fn : List Char → FileInfo → Option GoErr)
    (pages : List (Except GoErr ListPage))
    (hkeys : ∀ pr ∈ pages, ∀ it ∈ pageItems pr, (normDir dir).length ≤ it.key.length) :
    (WalkContext dir fn pages).1 =
      (consumedPages pages).flatMap (pageVisits (normDir dir).length) ∧
    (WalkContext dir fn pages).2.1 = (consumedPages pages).length ∧
    (WalkContext dir fn pages).2.2 = walkErrOf pages ∧
    (∀ g, WalkContext dir fn pages = WalkContext dir g pages) := by
  have ht := walkPages_trace (normDir dir).length pages hkeys
  refine ⟨?_, ?_, ?_, fun g => rfl⟩
  · rw [WalkContext, ht]
  · rw [WalkContext, ht]
  · rw [WalkContext, ht]

/-- Witness for C1's amended theorem on the concrete two-page listing:
both entries visited, both pages fetched, no error — although the visitor
requests termination at every entry. -/
theorem walkContext_trace_witness :
    (WalkContext ['/'] walkFnStop walkPagesEx).1 =
      (consumedPages walkPagesEx).flatMap (pageVisits (normDir ['/']).length) ∧
    (WalkContext ['/'] walkFnStop walkPagesEx).2.1 = (consumedPages walkPagesEx).length ∧
    (WalkContext ['/'] walkFnStop walkPagesEx).2.2 = walkErrOf walkPagesEx ∧
    (∀ g, WalkContext ['/'] walkFnStop walkPagesEx = WalkContext ['/'] g walkPagesEx) :=
  walkContext_trace ['/'] walkFnStop walkPagesEx (by decide)

/-- Counterexample to C1 as stated: the visitor requests termination at
the very first entry (returns a non-nil error), yet the walk still visits
the second entry and fetches the second page. -/
theorem walkContext_ignores_termination_counterexample :
    walkFnStop ['/', 'a'] (mkFileInfo ['a'] 1 0) = some (.other 1) ∧
    (WalkContext ['/'] walkFnStop walkPagesEx).1 =
      [(['/', 'a'], mkFileInfo ['a'] 1 0), (['/', 'b'], mkFileInfo ['b'] 2 0)] ∧
    (WalkContext ['/'] walkFnStop walkPagesEx).2.1 = 2 := by
  refine ⟨rfl, by decide, by decide⟩

theorem readdirItems_ok (dirLen : Nat) (items : List Item)
    (h : ∀ it ∈ items, dirLen ≤ it.key.length) :
    readdirItems dirLen items =
      .ok (items.map (fun it =>
        mkFileInfo (it.key.drop dirLen) it.fsize (fromPutTime it.putTime))) := by
  induction items with
  | nil => rfl
  | cons it rest ih =>
    rw [readdirItems, goSliceFrom, if_pos (h it (List.mem_cons_self it rest))]
    rw [ih (fun x hx => h x (List.mem_cons_of_mem _ hx))]
    rfl

theorem readdirCommonPre_ok (dirLen : Nat) (cps : List (List Char))
    (h : ∀ k ∈ cps, dirLen < k.length) :
    readdirCommonPre dirLen cps =
      .ok (cps.map (fun k => mkDirInfo (k.dropLast.drop dirLen))) := by
  induction cps with
  | nil => rfl
  | cons k rest ih =>
    have hk := h k (List.mem_cons_self k rest)
    rw [readdirCommonPre, if_neg (by omega), goSlice,
      if_pos (by constructor <;> omega)]
    rw [ih (fun x hx => h x (List.mem_cons_of_mem _ hx))]
    rw [show List.drop dirLen (List.take (k.length - 1) k) = k.dropLast.drop dirLen by
      rw [List.dropLast_eq_take]]
    rfl

theorem readdirPages_spec (dirLen : Nat) (pages : List (Except GoErr ListPageD))
    (hitems : ∀ pr ∈ pages, ∀ it ∈ pageItemsD pr, dirLen ≤ it.key.length)
    (hcps : ∀ pr ∈ pages, ∀ k ∈ pageCommonPre pr, dirLen < k.length) :
    readdirPages dirLen pages = readdirSpec dirLen pages := by
  induction pages with
  | nil => rfl
  | cons pr rest ih =>
    cases pr with
    | error e => rfl
    | ok pg =>
      have hi : ∀ it ∈ pg.items, dirLen ≤ it.key.length :=
        hitems (.ok pg) (List.mem_cons_self _ _)
      have hc : ∀ k ∈ pg.commonPrefixes, dirLen < k.length :=
        hcps (.ok pg) (List.mem_cons_self _ _)
      rw [readdirPages, readdirItems_ok dirLen pg.items hi,
        readdirCommonPre_ok dirLen pg.commonPrefixes hc, readdirSpec]
      have ihr := ih (fun p hp => hitems p (List.mem_cons_of_mem _ hp))
        (fun p hp => hcps p (List.mem_cons_of_mem _ hp))
      by_cases hn : pg.hasNext
      · simp only [hn, if_true, ihr]
        cases readdirSpec dirLen rest with
        | ok c => simp [readdirSpecPage, List.append_assoc]
        | error e => rfl
      · simp only [hn, Bool.false_eq_true, if_false, readdirSpecPage]

theorem readdirSpec_error_mem (dirLen : Nat) (pages : List (Except GoErr ListPageD)) :
    ∀ e, readdirSpec dirLen pages = .error e → (Except.error e : Except GoErr ListPageD) ∈ pages := by
  induction pages with
  | nil => intro e h; cases h
  | cons pr rest ih =>
    intro e h
    cases pr with
    | error e' =>
      rw [readdirSpec] at h
      cases h
      exact List.mem_cons_self _ _
    | ok pg =>
      rw [readdirSpec] at h
      by_cases hn : pg.hasNext
      · rw [if_pos hn] at h
        cases hr : readdirSpec dirLen rest with
        | ok c => rw [hr] at h; cases h
        | error e' =>
          rw [hr] at h
          cases h
          exact List.mem_cons_of_mem _ (ih e hr)
      · rw [if_neg hn] at h
        cases h

/-- C9, amended: under the precondition that every listed item key starts
with the normalized directory prefix (is at least as long) and every
grouped common prefix strictly extends it (is strictly longer),
`ReaddirContext`'s key slicing is in bounds and cannot fail: the result
equals the panic-free computation whose entry names are the keys with the
prefix removed from the front (and, for common prefixes, the trailing
delimiter removed), and any error of the run is a page-fetch error, never
the slicing panic. -/
theorem readdir_slice_safe (dir : List Char) (pages : List (Except GoErr ListPageD))
    (hitems : ∀ pr ∈ pages, ∀ it ∈ pageItemsD pr, (normDir dir).length ≤ it.key.length)
    (hcps : ∀ pr ∈ pages, ∀ k ∈ pageCommonPre pr, (normDir dir).length < k.length) :
    ReaddirContext dir pages = readdirSpec (normDir dir).length pages ∧
    (∀ e, ReaddirContext dir pages = .error e →
      (Except.error e : Except GoErr ListPageD) ∈ pages) := by
  have hs := readdirPages_spec (normDir dir).length pages hitems hcps
  refine ⟨hs, ?_⟩
  intro e he
  rw [ReaddirContext] at he
  rw [hs] at he
  exact readdirSpec_error_mem (normDir dir).length pages e he

/-- Witness for C9's amended theorem on a concrete listing under `a/`:
item `a/x` and grouped prefix `a/y/` produce entries `x` and `y`, with no
panic. -/
theorem readdir_slice_safe_witness :
    ReaddirContext (("a/").data) [.ok ⟨[⟨("a/x").data, 2, 5⟩], [("a/y/").data], false, []⟩] =
      readdirSpec (normDir (("a/").data)).length
        [.ok ⟨[⟨("a/x").data, 2, 5⟩], [("a/y/").data], false, []⟩] ∧
    (∀ e, ReaddirContext (("a/").data)
        [.ok ⟨[⟨("a/x").data, 2, 5⟩], [("a/y/").data], false, []⟩] = .error e →
      (Except.error e : Except GoErr ListPageD) ∈
        [.ok (⟨[⟨("a/x").data, 2, 5⟩], [("a/y/").data], false, []⟩ : ListPageD)]) :=
  readdir_slice_safe (("a/").data) [.ok ⟨[⟨("a/x").data, 2, 5⟩], [("a/y/").data], false, []⟩]
    (by decide) (by decide)

/-- Counterexample to C9 as stated: a common prefix that starts with (in
fact equals) the normalized prefix `a/` makes the slice bounds fail — the
runtime panic — and an item key `a/a/b` starting with the prefix yields
the name `a/b`, which still contains the directory prefix `a/`. -/
theorem readdir_slice_counterexample :
    ReaddirContext (("a/").data) [.ok ⟨[], [("a/").data], false, []⟩] =
      .error .panicRange ∧
    (("a/").data).isPrefixOf (("a/").data) = true ∧
    ReaddirContext (("a/").data) [.ok ⟨[⟨("a/a/b").data, 3, 0⟩], [], false, []⟩] =
      .ok [mkFileInfo (("a/b").data) 3 0] ∧
    containsSeq (("a/").data) (("a/b").data) = true := by
  refine ⟨by decide, by decide, by decide, by decide⟩

theorem nextFuel_empty_none : ∀ (n : Nat) (st : ItState),
    (st.page = none ∨ ∃ ntok, st.page = some ([], ntok)) → st.isLastPage = false →
    nextFuel emptyPagesFetch st n = none := by
  intro n
  induction n with
  | zero => intro st _ _; rfl
  | succ n ih =>
    intro st hp hl
    obtain ⟨pg, idx, last, tok⟩ := st
    simp only at hp hl
    subst hl
    rcases hp with hnone | ⟨ntok, hsome⟩
    · subst hnone
      simp only [nextFuel, emptyPagesFetch]
      exact ih ⟨some ([], []), 0, false, tok⟩ (Or.inr ⟨[], rfl⟩) rfl
    · subst hsome
      simp only [nextFuel, emptyPagesFetch, List.length_nil, Nat.not_lt_zero, dif_neg,
        not_false_eq_true, Bool.false_eq_true, if_false]
      exact ih ⟨some ([], []), 0, false, ntok⟩ (Or.inr ⟨[], rfl⟩) rfl

/-- C8: `ListIterator.Next` terminates for every iterator state — within
three nested calls — under the precondition that every fetched page is
non-empty or flagged as the last page; and without that precondition the
recursive page-loading step repeats forever on an oracle that keeps
returning empty non-last pages: no amount of fuel produces a result. -/
theorem listIterator_next_termination :
    (∀ fetch st, GoodFetch fetch → (nextFuel fetch st 3).isSome = true) ∧
    (∀ n, nextFuel emptyPagesFetch ⟨none, 0, false, []⟩ n = none) := by
  constructor
  · intro fetch st hgf
    obtain ⟨pg, idx, last, tok⟩ := st
    cases pg with
    | none =>
      cases hf : fetch tok with
      | error e => simp [nextFuel, hf]
      | ok tr =>
        obtain ⟨objs, ntok, lst⟩ := tr
        rcases hgf tok objs ntok lst hf with hne | hl
        · have h0 : 0 < objs.length := List.length_pos.2 hne
          simp [nextFuel, hf, h0]
        · by_cases h0 : 0 < objs.length
          · simp [nextFuel, hf, h0]
          · simp [nextFuel, hf, h0, hl]
    | some pr =>
      obtain ⟨objs, ntok⟩ := pr
      by_cases hidx : idx < objs.length
      · simp [nextFuel, hidx]
      · by_cases hlast : last
        · simp [nextFuel, hidx, hlast]
        · cases hf : fetch ntok with
          | error e => simp [nextFuel, hidx, hlast, hf]
          | ok tr =>
            obtain ⟨objs', ntok', lst⟩ := tr
            rcases hgf ntok objs' ntok' lst hf with hne | hl
            · have h0 : 0 < objs'.length := List.length_pos.2 hne
              simp [nextFuel, hidx, hlast, hf, h0]
            · by_cases h0 : 0 < objs'.length
              · simp [nextFuel, hidx, hlast, hf, h0]
              · simp [nextFuel, hidx, hlast, hf, h0, hl]
  · intro n
    exact nextFuel_empty_none n ⟨none, 0, false, []⟩ (Or.inl rfl) rfl

/-- Witness for C8 at a concrete well-behaved fetch oracle: `Next` from
the initial iterator state returns a result within the fuel bound. -/
theorem listIterator_next_termination_witness :
    (nextFuel goodFetchEx ⟨none, 0, false, []⟩ 3).isSome = true :=
  listIterator_next_termination.1 goodFetchEx ⟨none, 0, false, []⟩ (by
    intro tok objs ntok last h
    simp only [goodFetchEx, Except.ok.injEq, Prod.mk.injEq] at h
    exact Or.inr h.2.2.symm)

end KodoFS
